import Mathlib

/-!
Verification of the hulyrs transactor client core: the RPC envelope,
the WebSocket pump task (request correlation, HELLO handshake, id
allocation), the HTTP backend's domain-request URL, the subscription
state machine, and the document find operations.

Shallow embedding conventions:
* serde_json::Value is modelled by `JValue`; JSON numbers are modelled as
  integers (no claim depends on non-integer numerics).
* f64 timing fields (time, bfst, reset) are only ever carried through
  untouched by the code under study; they are modelled as `Int`.
* Deserialization `serde_json::from_value::<T>` is modelled at T = Value,
  where it is the identity and never fails.
* Rust `==` comparisons on JSON values are modelled by the boolean
  equality test `JValue.beq`.
* The i32 request-id counter is modelled by `Int` together with `wrap32`,
  reproducing the wrapping semantics of `AtomicI32::fetch_add`.
-/

namespace Hulyrs

/-- serde_json::Value (JSON numbers as integers). -/
inductive JValue where
  | null
  | bool (b : Bool)
  | num (n : Int)
  | str (s : String)
  | arr (xs : List JValue)
  | obj (fields : List (String × JValue))
deriving Repr

/-- Boolean equality on JSON values, modelling Rust's PartialEq on
serde_json::Value. -/
def JValue.beq : JValue → JValue → Bool
  | .null, .null => true
  | .bool a, .bool b => a == b
  | .num a, .num b => a == b
  | .str a, .str b => a == b
  | .arr xs, .arr ys => go xs ys
  | .obj fs, .obj gs => goObj fs gs
  | _, _ => false
where
  go : List JValue → List JValue → Bool
    | [], [] => true
    | x :: xs, y :: ys => JValue.beq x y && go xs ys
    | _, _ => false
  goObj : List (String × JValue) → List (String × JValue) → Bool
    | [], [] => true
    | (k, v) :: xs, (k', v') :: ys => k == k' && JValue.beq v v' && goObj xs ys
    | _, _ => false

/-- services::rpc::ReqId — tagged union of string and i32 ids. -/
inductive ReqId where
  | str (s : String)
  | num (n : Int)
deriving DecidableEq, Repr

/-- services::Severity. -/
inductive Severity where
  | ok
  | info
  | warning
  | error
deriving DecidableEq, Repr

/-- services::Status — the structured service error carried in a Response. -/
structure Status where
  severity : Severity
  code : String
  params : List (String × String)
deriving DecidableEq, Repr

/-- services::rpc::RateLimitInfo. -/
structure RateLimitInfo where
  remaining : Nat
  limit : Nat
  current : Nat
  reset : Int
  retryAfter : Option Nat := none
deriving DecidableEq, Repr

/-- services::rpc::Chunk. -/
structure Chunk where
  index : Nat
  final : Bool
deriving DecidableEq, Repr

/-- services::rpc::Response<R> at R = Value. -/
structure Response where
  result : Option JValue := none
  id : Option ReqId := none
  error : Option Status := none
  terminate : Option Bool := none
  rateLimit : Option RateLimitInfo := none
  chunk : Option Chunk := none
  time : Option Int := none
  bfst : Option Int := none
  queue : Option Nat := none
deriving Repr

/-- services::rpc::util::OkResponse<R> at R = Value. -/
structure OkResponse where
  result : Option JValue := none
  id : Option ReqId := none
  terminate : Option Bool := none
  rateLimit : Option RateLimitInfo := none
  chunk : Option Chunk := none
  time : Option Int := none
  bfst : Option Int := none
  queue : Option Nat := none
deriving Repr

/-- Response::into_result: an error field makes the call a service error,
anything else (including a response with neither result nor error) is Ok. -/
def Response.into_result (r : Response) : Except Status OkResponse :=
  match r.error with
  | some e => .error e
  | none =>
      .ok { result := r.result, id := r.id, terminate := r.terminate,
            rateLimit := r.rateLimit, chunk := r.chunk, time := r.time,
            bfst := r.bfst, queue := r.queue }

/-- crate::Error, restricted to the variants reachable from the code under
study.  `subscriptionFailed` is the variant named Error::SubscriptionFailed
by the subscription module. -/
inductive Error where
  | serviceError (s : Status)
  | serde (msg : String)
  | other (s : String)
  | httpError (status : Nat) (body : String)
  | subscriptionFailed
deriving DecidableEq, Repr

/-- The tail of ws::send_and_wait, applied to what the caller's oneshot
receive yields: `none` models the sender having been dropped without a
send (reply_rx.await returning Err), `some v` models a delivered value. -/
def send_and_wait (reply : Option (Except Status OkResponse)) : Except Error JValue :=
  match reply with
  | none => .error (.other "connection closed before reply")
  | some (.error status) => .error (.serviceError status)
  | some (.ok ok) =>
      match ok.result with
      | none => .error (.other "server didn't return a result")
      | some v => .ok v

/-- What a ws get/post caller observes when the pump task fulfills its
reply channel with response `r`: the pump sends `r.into_result()` and the
caller runs the tail of send_and_wait on it. -/
def wsCallReply (r : Response) : Except Error JValue :=
  send_and_wait (some r.into_result)

example : wsCallReply {} = .error (.other "server didn't return a result") := rfl

end Hulyrs

namespace Hulyrs

/-- `is_some_and(|v| v == lit)` on a Response's result field. -/
def Response.resultIs (r : Response) (lit : String) : Bool :=
  match r.result with
  | some v => v.beq (.str lit)
  | none => false

/-- services::rpc::HelloResponse; the untouched account payload is
modelled by the account uuid string. -/
structure HelloResp where
  response : Response
  binary : Bool
  reconnect : Option Bool := none
  serverVersion : String := ""
  lastTx : Option String := none
  lastHash : Option String := none
  account : String := ""
  useCompression : Option Bool := none
deriving Repr

/-- One ws frame as the pump task's read half sees it, after the decode
performed at the top of the read branch.  `resp` carries the envelope
parse together with the result of re-parsing the same raw payload as a
HelloResponse (`none` when that parse would fail). -/
inductive Frame where
  | pong
  | resp (r : Response) (hp : Option HelloResp)
  | malformed
  | ping
  | closeFrame
  | otherFrame
deriving Repr

/-- ws::Command: a Call carries its payload and a reply channel, which we
identify by a caller tag. -/
inductive Command where
  | call (caller : Nat) (payload : JValue)
  | close
deriving Repr

/-- One input to the pump task's select loop. -/
inductive WsEvent where
  | cmd (c : Command)
  | frame (f : Frame)
deriving Repr

/-- Signed 32-bit wrap-around, the semantics of AtomicI32::fetch_add. -/
def wrap32 (n : Int) : Int := (n + 2 ^ 31) % 2 ^ 32 - 2 ^ 31

/-- Insert into the correlation table (HashMap semantics: replaces an
entry with the same key). -/
def tableInsert (k : ReqId) (c : Nat) (t : List (ReqId × Nat)) : List (ReqId × Nat) :=
  (k, c) :: t.filter (fun p => p.1 ≠ k)

/-- HashMap::remove, key part. -/
def tableErase (k : ReqId) (t : List (ReqId × Nat)) : List (ReqId × Nat) :=
  t.filter (fun p => p.1 ≠ k)

/-- HashMap::remove, value part. -/
def tableGet (k : ReqId) (t : List (ReqId × Nat)) : Option Nat :=
  (t.find? (fun p => p.1 = k)).map Prod.snd

/-- The pump task's state.  `pending` is the correlation table; the other
list fields are ghost observation logs: `assigned` records (caller, id)
pairs in allocation order, `delivered` records reply-channel fulfillments
with the raw response, `broadcasts` records values sent on tx_broadcast,
and `helloFulfilled` counts fulfillments of the handshake channel. -/
structure PumpState where
  nextId : Int := 1
  pending : List (ReqId × Nat) := []
  helloTx : Bool := true
  binaryMode : Bool := false
  useCompression : Bool := false
  stopped : Bool := false
  assigned : List (Nat × Int) := []
  delivered : List (Nat × Response) := []
  broadcasts : List JValue := []
  helloFulfilled : Nat := 0
deriving Repr

/-- Response dispatch: the body of the read branch of socket_task's loop
after a Response envelope has been obtained, in source order: the "ping"
result check, the HELLO-sentinel branch, correlation-table fulfillment,
and the pushed-transaction broadcast fallback. -/
def dispatch (s : PumpState) (r : Response) (hp : Option HelloResp) : PumpState :=
  if r.resultIs "ping" then s
  else if r.id = some (.num (-1)) then
    if r.result.isNone ∧ r.error.isSome then s
    else if r.resultIs "hello" then
      if ¬ s.helloTx then s
      else
        match hp with
        | none => { s with helloTx := false, stopped := true }
        | some h =>
            { s with helloTx := false, binaryMode := h.binary,
                     useCompression := h.useCompression.getD false,
                     helloFulfilled := s.helloFulfilled + 1 }
    else s
  else
    match r.id with
    | some rid =>
        match tableGet rid s.pending with
        | some caller =>
            { s with pending := tableErase rid s.pending,
                     delivered := s.delivered ++ [(caller, r)] }
        | none => dispatchBroadcast s r
    | none => dispatchBroadcast s r
where
  dispatchBroadcast (s : PumpState) (r : Response) : PumpState :=
    match r.result with
    | some (.arr txs) => { s with broadcasts := s.broadcasts ++ txs }
    | _ => s

/-- The body of one iteration of socket_task's select loop. -/
def pumpExec (s : PumpState) : WsEvent → PumpState
  | .cmd (.call caller _payload) =>
      let id := s.nextId
      { s with nextId := wrap32 (s.nextId + 1),
               pending := tableInsert (.num id) caller s.pending,
               assigned := s.assigned ++ [(caller, id)] }
  | .cmd .close => { s with stopped := true }
  | .frame .pong => dispatch s { result := some (.str "pong!") } none
  | .frame (.resp r hp) => dispatch s r hp
  | .frame .malformed => { s with stopped := true }
  | .frame .ping => s
  | .frame .closeFrame => { s with stopped := true }
  | .frame .otherFrame => s

/-- One iteration of socket_task's select loop; once the loop has exited,
further inputs have no effect. -/
def pumpStep (s : PumpState) (e : WsEvent) : PumpState :=
  if s.stopped then s else pumpExec s e

/-- The pump state at connection start, from WsBackendOpts. -/
def initPump (binary compression : Bool) : PumpState :=
  { binaryMode := binary, useCompression := compression }

/-- Run the pump loop over a finite schedule of inputs. -/
def pumpRun (binary compression : Bool) (events : List WsEvent) : PumpState :=
  events.foldl pumpStep (initPump binary compression)

/-- The caller tags of the Call commands in a schedule. -/
def eventCallers : List WsEvent → List Nat
  | [] => []
  | .cmd (.call c _) :: es => c :: eventCallers es
  | _ :: es => eventCallers es

/-- What a caller's send_and_wait observes once the session settles:
its delivered reply if the pump fulfilled its channel, the dropped-channel
outcome if the pump task has terminated without fulfilling it, and still
awaiting (`none`) otherwise. -/
def callOutcome (s : PumpState) (c : Nat) : Option (Except Error JValue) :=
  match s.delivered.find? (fun p => p.1 = c) with
  | some p => some (wsCallReply p.2)
  | none => if s.stopped then some (send_and_wait none) else none

end Hulyrs

namespace Hulyrs

/-- The correlation invariant of the pump loop: every table entry's key is
an integer id the pump assigned to that entry's caller; every fulfilled
reply carries the id assigned to its receiving caller; callers occur at
most once in each of the three logs; and no caller is simultaneously
outstanding and fulfilled.  The hello fields say the handshake channel is
fulfilled at most once, and not yet while hello_tx is still held. -/
structure PumpInv (s : PumpState) : Prop where
  pendSub : ∀ k c, (k, c) ∈ s.pending → ∃ i, k = ReqId.num i ∧ (c, i) ∈ s.assigned
  delivSub : ∀ c r, (c, r) ∈ s.delivered → ∃ i, r.id = some (ReqId.num i) ∧ (c, i) ∈ s.assigned
  assignedNodup : (s.assigned.map Prod.fst).Nodup
  pendNodup : (s.pending.map Prod.snd).Nodup
  delivNodup : (s.delivered.map Prod.fst).Nodup
  disj : ∀ c, c ∈ s.delivered.map Prod.fst → c ∉ s.pending.map Prod.snd
  helloZero : s.helloTx = true → s.helloFulfilled = 0
  helloMax : s.helloFulfilled ≤ 1

theorem initPump_inv (binary compression : Bool) : PumpInv (initPump binary compression) := by
  constructor <;> simp [initPump]

theorem tableGet_mem {k : ReqId} {c : Nat} {t : List (ReqId × Nat)}
    (h : tableGet k t = some c) : (k, c) ∈ t := by
  unfold tableGet at h
  cases hf : t.find? (fun p => p.1 = k) with
  | none => simp [hf] at h
  | some p =>
      simp only [hf, Option.map_some', Option.some.injEq] at h
      have hmem := List.mem_of_find?_eq_some hf
      have hk := List.find?_some hf
      simp only [decide_eq_true_eq] at hk
      rw [← hk, ← h]
      exact hmem

theorem pendingCallers_unique {s : PumpState} (h : PumpInv s)
    {k1 k2 : ReqId} {c : Nat} (h1 : (k1, c) ∈ s.pending) (h2 : (k2, c) ∈ s.pending) :
    k1 = k2 := by
  have := List.inj_on_of_nodup_map h.pendNodup h1 h2 rfl
  exact congrArg Prod.fst this


theorem list_disjoint_singleton {α} {l : List α} {a : α} (h : a ∉ l) :
    l.Disjoint [a] := by
  intro x hx hxa
  rw [List.mem_singleton] at hxa
  subst hxa
  exact h hx

theorem dispatch_inv {s : PumpState} (r : Response) (hp : Option HelloResp)
    (h : PumpInv s) : PumpInv (dispatch s r hp) := by
  unfold dispatch
  split
  · exact h
  split
  · -- sentinel branch
    split
    · exact h
    split
    · split
      · exact h
      · rename_i hTxNot
        rw [Bool.not_eq_true, Bool.not_eq_false] at hTxNot
        have hzero : s.helloFulfilled = 0 := h.helloZero hTxNot
        split
        · exact ⟨h.pendSub, h.delivSub, h.assignedNodup, h.pendNodup,
            h.delivNodup, h.disj, by intro hh; exact absurd hh (by simp),
            h.helloMax⟩
        · exact ⟨h.pendSub, h.delivSub, h.assignedNodup, h.pendNodup,
            h.delivNodup, h.disj, by intro hh; exact absurd hh (by simp),
            by simp [hzero]⟩
    · exact h
  · -- correlation / broadcast
    have hbcast : PumpInv (dispatch.dispatchBroadcast s r) := by
      unfold dispatch.dispatchBroadcast
      split
      · exact ⟨h.pendSub, h.delivSub, h.assignedNodup, h.pendNodup,
          h.delivNodup, h.disj, h.helloZero, h.helloMax⟩
      · exact h
    split
    · rename_i rid hid
      split
      · rename_i caller hget
        have hmem : (rid, caller) ∈ s.pending := tableGet_mem hget
        obtain ⟨i, hkey, hass⟩ := h.pendSub rid caller hmem
        have hcaller_pend : caller ∈ s.pending.map Prod.snd :=
          List.mem_map_of_mem Prod.snd hmem
        have hcaller_notdeliv : caller ∉ s.delivered.map Prod.fst := by
          intro hcd
          exact h.disj caller hcd hcaller_pend
        refine ⟨?_, ?_, h.assignedNodup, ?_, ?_, ?_, h.helloZero, h.helloMax⟩
        · intro k c hkc
          exact h.pendSub k c (List.mem_of_mem_filter hkc)
        · intro c r' hcr
          rcases List.mem_append.mp hcr with hcr | hcr
          · exact h.delivSub c r' hcr
          · rcases List.mem_singleton.mp hcr with hcr
            cases hcr
            exact ⟨i, by rw [hid, hkey], hass⟩
        · exact h.pendNodup.sublist ((List.filter_sublist _).map _)
        · rw [List.map_append]
          simp only [List.map_cons, List.map_nil]
          exact List.Nodup.append h.delivNodup (List.nodup_singleton _)
            (list_disjoint_singleton hcaller_notdeliv)
        · intro c hc hcp
          rw [List.map_append] at hc
          simp only [List.mem_append, List.map_cons, List.map_nil,
            List.mem_singleton] at hc
          have hcp' : c ∈ s.pending.map Prod.snd :=
            ((List.filter_sublist _).map _).mem hcp
          rcases hc with hc | hc
          · exact h.disj c hc hcp'
          · rw [hc] at hcp
            obtain ⟨⟨k2, c2⟩, hmem2, hc2⟩ := List.mem_map.mp hcp
            simp only at hc2
            rw [hc2] at hmem2
            have hmem2' : (k2, caller) ∈ s.pending := List.mem_of_mem_filter hmem2
            have hkeq : k2 = rid := pendingCallers_unique h hmem2' hmem
            have hne := List.of_mem_filter hmem2
            rw [hkeq] at hne
            simp at hne
      · exact hbcast
    · exact hbcast

theorem pumpExec_inv {s : PumpState} {e : WsEvent} (h : PumpInv s)
    (hfresh : ∀ c p, e = .cmd (.call c p) → c ∉ s.assigned.map Prod.fst) :
    PumpInv (pumpExec s e) := by
  cases e with
  | cmd c =>
      cases c with
      | call caller payload =>
          have hfr : caller ∉ s.assigned.map Prod.fst := hfresh caller payload rfl
          have hfr_pend : caller ∉ s.pending.map Prod.snd := by
            intro hcp
            obtain ⟨⟨k2, c2⟩, hmem2, hc2⟩ := List.mem_map.mp hcp
            simp only at hc2
            rw [hc2] at hmem2
            obtain ⟨i, _, hass⟩ := h.pendSub k2 caller hmem2
            exact hfr (List.mem_map_of_mem Prod.fst hass)
          have hfr_deliv : caller ∉ s.delivered.map Prod.fst := by
            intro hcd
            obtain ⟨⟨c2, r2⟩, hmem2, hc2⟩ := List.mem_map.mp hcd
            simp only at hc2
            rw [hc2] at hmem2
            obtain ⟨i, _, hass⟩ := h.delivSub caller r2 hmem2
            exact hfr (List.mem_map_of_mem Prod.fst hass)
          simp only [pumpExec]
          refine ⟨?_, ?_, ?_, ?_, h.delivNodup, ?_, h.helloZero, h.helloMax⟩
          · intro k c hkc
            rcases List.mem_cons.mp hkc with hkc | hkc
            · cases hkc
              exact ⟨s.nextId, rfl,
                List.mem_append_right _ (List.mem_singleton.mpr rfl)⟩
            · obtain ⟨i, hkey, hass⟩ := h.pendSub k c (List.mem_of_mem_filter hkc)
              exact ⟨i, hkey, List.mem_append_left _ hass⟩
          · intro c r' hcr
            obtain ⟨i, hkey, hass⟩ := h.delivSub c r' hcr
            exact ⟨i, hkey, List.mem_append_left _ hass⟩
          · rw [List.map_append]
            simp only [List.map_cons, List.map_nil]
            exact List.Nodup.append h.assignedNodup (List.nodup_singleton _)
              (list_disjoint_singleton hfr)
          · simp only [tableInsert, List.map_cons]
            refine List.Nodup.cons ?_
              (h.pendNodup.sublist ((List.filter_sublist _).map _))
            intro hcp
            exact hfr_pend (((List.filter_sublist _).map _).mem hcp)
          · intro c hc
            simp only [tableInsert, List.map_cons, List.mem_cons]
            rintro (hcc | hcp)
            · subst hcc
              exact hfr_deliv hc
            · exact h.disj c hc (((List.filter_sublist _).map _).mem hcp)
      | close => exact ⟨h.pendSub, h.delivSub, h.assignedNodup, h.pendNodup,
          h.delivNodup, h.disj, h.helloZero, h.helloMax⟩
  | frame f =>
      cases f with
      | pong => exact dispatch_inv { result := some (.str "pong!") } none h
      | resp r hp => exact dispatch_inv r hp h
      | malformed => exact ⟨h.pendSub, h.delivSub, h.assignedNodup, h.pendNodup,
          h.delivNodup, h.disj, h.helloZero, h.helloMax⟩
      | ping => exact h
      | closeFrame => exact ⟨h.pendSub, h.delivSub, h.assignedNodup, h.pendNodup,
          h.delivNodup, h.disj, h.helloZero, h.helloMax⟩
      | otherFrame => exact h

theorem pumpStep_inv {s : PumpState} {e : WsEvent} (h : PumpInv s)
    (hfresh : ∀ c p, e = .cmd (.call c p) → c ∉ s.assigned.map Prod.fst) :
    PumpInv (pumpStep s e) := by
  unfold pumpStep
  split
  · exact h
  · exact pumpExec_inv h hfresh

end Hulyrs

namespace Hulyrs

theorem dispatch_keeps (s : PumpState) (r : Response) (hp : Option HelloResp) :
    (dispatch s r hp).assigned = s.assigned ∧ (dispatch s r hp).nextId = s.nextId := by
  unfold dispatch
  have hb : (dispatch.dispatchBroadcast s r).assigned = s.assigned ∧
      (dispatch.dispatchBroadcast s r).nextId = s.nextId := by
    unfold dispatch.dispatchBroadcast
    split
    · exact ⟨rfl, rfl⟩
    · exact ⟨rfl, rfl⟩
  split
  · exact ⟨rfl, rfl⟩
  split
  · split
    · exact ⟨rfl, rfl⟩
    split
    · split
      · exact ⟨rfl, rfl⟩
      · split
        · exact ⟨rfl, rfl⟩
        · exact ⟨rfl, rfl⟩
    · exact ⟨rfl, rfl⟩
  · split
    · split
      · exact ⟨rfl, rfl⟩
      · exact hb
    · exact hb

theorem pumpStep_assigned (s : PumpState) (e : WsEvent) :
    ((pumpStep s e).assigned = s.assigned ∧ (pumpStep s e).nextId = s.nextId) ∨
    (∃ c p, e = WsEvent.cmd (.call c p) ∧
      (pumpStep s e).assigned = s.assigned ++ [(c, s.nextId)] ∧
      (pumpStep s e).nextId = wrap32 (s.nextId + 1)) := by
  unfold pumpStep
  split
  · exact Or.inl ⟨rfl, rfl⟩
  cases e with
  | cmd c =>
      cases c with
      | call caller payload =>
          exact Or.inr ⟨caller, payload, rfl, by simp [pumpExec], by simp [pumpExec]⟩
      | close => exact Or.inl ⟨rfl, rfl⟩
  | frame f =>
      cases f with
      | pong => exact Or.inl (dispatch_keeps s _ none)
      | resp r hp => exact Or.inl (dispatch_keeps s r hp)
      | malformed => exact Or.inl ⟨rfl, rfl⟩
      | ping => exact Or.inl ⟨rfl, rfl⟩
      | closeFrame => exact Or.inl ⟨rfl, rfl⟩
      | otherFrame => exact Or.inl ⟨rfl, rfl⟩

theorem eventCallers_cons (e : WsEvent) (es : List WsEvent) :
    eventCallers (e :: es) =
      (match e with | .cmd (.call c _) => [c] | _ => []) ++ eventCallers es := by
  cases e with
  | cmd c => cases c <;> rfl
  | frame f => cases f <;> rfl

theorem pumpFold_inv (events : List WsEvent) :
    ∀ s : PumpState, PumpInv s →
    (∀ c ∈ eventCallers events, c ∉ s.assigned.map Prod.fst) →
    (eventCallers events).Nodup →
    PumpInv (events.foldl pumpStep s) := by
  induction events with
  | nil => intro s h _ _; exact h
  | cons e es ih =>
      intro s h hfresh hnd
      rw [List.foldl_cons]
      rw [eventCallers_cons] at hfresh hnd
      have hstep : PumpInv (pumpStep s e) := by
        apply pumpStep_inv h
        intro c p hep
        subst hep
        exact hfresh c (by simp)
      apply ih _ hstep ?_ ?_
      · intro c hc
        rcases pumpStep_assigned s e with ⟨ha, _⟩ | ⟨c0, p0, he, ha, _⟩
        · rw [ha]
          exact hfresh c (List.mem_append_right _ hc)
        · rw [ha, List.map_append]
          simp only [List.map_cons, List.map_nil, List.mem_append,
            List.mem_singleton]
          rintro (hold | hceq)
          · exact hfresh c (List.mem_append_right _ hc) hold
          · subst hceq
            subst he
            simp only [List.nodup_cons, List.singleton_append] at hnd
            exact hnd.1 hc
      · cases e with
        | cmd cc =>
            cases cc with
            | call c0 p0 =>
                simp only [List.singleton_append, List.nodup_cons] at hnd
                exact hnd.2
            | close => simpa using hnd
        | frame f => cases f <;> simpa using hnd

theorem pumpRun_inv (binary compression : Bool) (events : List WsEvent)
    (hnd : (eventCallers events).Nodup) :
    PumpInv (pumpRun binary compression events) := by
  apply pumpFold_inv events _ (initPump_inv binary compression) _ hnd
  intro c _
  simp [initPump]

/-- The id the pump allocates to its k-th Call (0-based), as an i32. -/
def idAt (k : Nat) : Int := wrap32 (1 + (k : Int))

/-- The id-allocation trajectory: the k-th assigned id (0-based) is the
wrapped i32 value of k+1, and the counter holds the wrap of n+1 after n
allocations. -/
def IdsInv (s : PumpState) : Prop :=
  s.assigned.map Prod.snd = (List.range s.assigned.length).map idAt ∧
  s.nextId = idAt s.assigned.length

theorem wrap32_def (n : Int) :
    wrap32 n = (n + 2147483648) % 4294967296 - 2147483648 := by
  norm_num [wrap32]

theorem wrap32_wrap_add (a b : Int) : wrap32 (wrap32 a + b) = wrap32 (a + b) := by
  rw [wrap32_def, wrap32_def, wrap32_def]
  omega

theorem pumpStep_idsInv (s : PumpState) (e : WsEvent) (h : IdsInv s) :
    IdsInv (pumpStep s e) := by
  rcases pumpStep_assigned s e with ⟨ha, hn⟩ | ⟨c0, p0, _, ha, hn⟩
  · exact ⟨by rw [ha, h.1], by rw [hn, ha, h.2]⟩
  · constructor
    · rw [ha, List.map_append, h.1, List.length_append]
      simp only [List.length_singleton, List.map_cons, List.map_nil]
      rw [List.range_succ, List.map_append]
      simp only [List.map_cons, List.map_nil]
      rw [h.2]
    · rw [hn, ha, h.2, List.length_append]
      simp only [List.length_singleton]
      unfold idAt
      rw [wrap32_wrap_add]
      congr 1

theorem pumpFold_idsInv (events : List WsEvent) :
    ∀ s : PumpState, IdsInv s → IdsInv (events.foldl pumpStep s) := by
  induction events with
  | nil => intro s h; exact h
  | cons e es ih =>
      intro s h
      rw [List.foldl_cons]
      exact ih _ (pumpStep_idsInv s e h)

theorem pumpRun_idsInv (binary compression : Bool) (events : List WsEvent) :
    IdsInv (pumpRun binary compression events) := by
  apply pumpFold_idsInv
  constructor
  · simp [initPump]
  · simp only [initPump]
    rw [idAt, wrap32_def]
    norm_num

end Hulyrs

namespace Hulyrs

/-- C1: On one ws session, for any schedule of commands and frames with
distinct reply channels, every reply the pump task delivers to a caller is
a response carrying that caller's own request id — the unique id the pump
assigned to that caller's Call — and each reply channel is fulfilled at
most once, so no caller ever receives another caller's reply. -/
theorem ws_correlation_no_crosstalk (binary compression : Bool)
    (events : List WsEvent) (hnd : (eventCallers events).Nodup)
    (c : Nat) (r : Response)
    (hmem : (c, r) ∈ (pumpRun binary compression events).delivered) :
    (∃ i, r.id = some (ReqId.num i) ∧
       (c, i) ∈ (pumpRun binary compression events).assigned ∧
       ∀ j, (c, j) ∈ (pumpRun binary compression events).assigned → j = i) ∧
    ((pumpRun binary compression events).delivered.map Prod.fst).count c ≤ 1 := by
  have hinv := pumpRun_inv binary compression events hnd
  obtain ⟨i, hid, hass⟩ := hinv.delivSub c r hmem
  refine ⟨⟨i, hid, hass, ?_⟩, ?_⟩
  · intro j hj
    have := List.inj_on_of_nodup_map hinv.assignedNodup hj hass rfl
    exact congrArg Prod.snd this
  · exact List.nodup_iff_count_le_one.mp hinv.delivNodup c

def c1Events : List WsEvent :=
  [ .cmd (.call 0 .null),
    .cmd (.call 1 .null),
    .frame (.resp { id := some (.num 2), result := some (.str "B") } none),
    .frame (.resp { id := some (.num 1), result := some (.str "A") } none) ]

def c1RespB : Response := { id := some (.num 2), result := some (.str "B") }

/-- C1 witness: two concurrent calls answered out of order; caller 1's
delivered reply is the response with its own id 2, unique to it. -/
theorem ws_correlation_no_crosstalk_witness :
    (eventCallers c1Events).Nodup ∧
    (1, c1RespB) ∈ (pumpRun false false c1Events).delivered ∧
    ((∃ i, c1RespB.id = some (ReqId.num i) ∧
        (1, i) ∈ (pumpRun false false c1Events).assigned ∧
        ∀ j, (1, j) ∈ (pumpRun false false c1Events).assigned → j = i) ∧
     ((pumpRun false false c1Events).delivered.map Prod.fst).count 1 ≤ 1) :=
  have hmem : (1, c1RespB) ∈ (pumpRun false false c1Events).delivered :=
    List.Mem.head _
  ⟨by decide, hmem,
    ws_correlation_no_crosstalk false false c1Events (by decide) 1 c1RespB hmem⟩

/-- C2: If the pump loop has terminated while a call's correlation-table
entry is still pending, that caller's send_and_wait resolves to the
distinct error "connection closed before reply" (the reply sender is
dropped with the table), not a hang and not a service error; and the
entry was never also fulfilled — each entry is consumed exactly once. -/
theorem ws_pending_call_fails_closed (binary compression : Bool)
    (events : List WsEvent) (hnd : (eventCallers events).Nodup)
    (k : ReqId) (c : Nat)
    (hstop : (pumpRun binary compression events).stopped = true)
    (hpend : (k, c) ∈ (pumpRun binary compression events).pending) :
    callOutcome (pumpRun binary compression events) c =
      some (.error (.other "connection closed before reply")) ∧
    ((pumpRun binary compression events).delivered.map Prod.fst).count c = 0 := by
  have hinv := pumpRun_inv binary compression events hnd
  have hcp : c ∈ (pumpRun binary compression events).pending.map Prod.snd :=
    List.mem_map_of_mem Prod.snd hpend
  have hndc : c ∉ (pumpRun binary compression events).delivered.map Prod.fst :=
    fun hc => hinv.disj c hc hcp
  have hfind : (pumpRun binary compression events).delivered.find?
      (fun p => p.1 = c) = none := by
    rw [List.find?_eq_none]
    intro p hp
    simp only [decide_eq_true_eq]
    intro hpc
    exact hndc (hpc ▸ List.mem_map_of_mem Prod.fst hp)
  constructor
  · unfold callOutcome
    rw [hfind, hstop]
    simp [send_and_wait]
  · rw [List.count_eq_zero]
    exact hndc

def c2Events : List WsEvent := [.cmd (.call 0 .null), .cmd .close]

/-- C2 witness: one call, then the session closes with the reply pending;
the caller observes the connection-closed error and was never fulfilled. -/
theorem ws_pending_call_fails_closed_witness :
    (eventCallers c2Events).Nodup ∧
    (pumpRun false false c2Events).stopped = true ∧
    (ReqId.num 1, 0) ∈ (pumpRun false false c2Events).pending ∧
    (callOutcome (pumpRun false false c2Events) 0 =
        some (.error (.other "connection closed before reply")) ∧
     ((pumpRun false false c2Events).delivered.map Prod.fst).count 0 = 0) :=
  have hpend : (ReqId.num 1, 0) ∈ (pumpRun false false c2Events).pending :=
    List.Mem.head _
  ⟨by decide, rfl, hpend,
    ws_pending_call_fails_closed false false c2Events (by decide)
      (ReqId.num 1) 0 rfl hpend⟩

theorem resultIs_some {r : Response} {lit : String}
    (h : r.resultIs lit = true) : r.result.isNone = false := by
  unfold Response.resultIs at h
  cases hr : r.result with
  | none => rw [hr] at h; exact absurd h (by simp)
  | some v => simp

theorem resultIs_hello_not_ping {r : Response}
    (h : r.resultIs "hello" = true) : r.resultIs "ping" = false := by
  unfold Response.resultIs at h ⊢
  cases hr : r.result with
  | none => rfl
  | some v =>
      rw [hr] at h
      cases v with
      | str a =>
          simp only [JValue.beq] at h ⊢
          have ha : a = "hello" := by simpa using h
          rw [ha]
          decide
      | null => rfl
      | bool b => rfl
      | num n => rfl
      | arr xs => rfl
      | obj fs => rfl

end Hulyrs

namespace Hulyrs

/-- The handshake-channel invariant, provable for arbitrary schedules:
while hello_tx is still held nothing has been fulfilled, and the channel
is never fulfilled more than once. -/
def HelloInv (s : PumpState) : Prop :=
  (s.helloTx = true → s.helloFulfilled = 0) ∧ s.helloFulfilled ≤ 1

theorem dispatch_helloInv (s : PumpState) (r : Response) (hp : Option HelloResp)
    (h : HelloInv s) : HelloInv (dispatch s r hp) := by
  unfold dispatch
  have hb : HelloInv (dispatch.dispatchBroadcast s r) := by
    unfold dispatch.dispatchBroadcast
    split
    · exact ⟨h.1, h.2⟩
    · exact h
  split
  · exact h
  split
  · split
    · exact h
    split
    · split
      · exact h
      · rename_i hTxNot
        rw [Bool.not_eq_true, Bool.not_eq_false] at hTxNot
        have hzero := h.1 hTxNot
        split
        · exact ⟨by simp, h.2⟩
        · exact ⟨by simp, by simp [hzero]⟩
    · exact h
  · split
    · split
      · exact ⟨h.1, h.2⟩
      · exact hb
    · exact hb

theorem pumpStep_helloInv (s : PumpState) (e : WsEvent) (h : HelloInv s) :
    HelloInv (pumpStep s e) := by
  unfold pumpStep
  split
  · exact h
  cases e with
  | cmd c =>
      cases c with
      | call caller payload => exact ⟨h.1, h.2⟩
      | close => exact ⟨h.1, h.2⟩
  | frame f =>
      cases f with
      | pong => exact dispatch_helloInv s _ none h
      | resp r hp => exact dispatch_helloInv s r hp h
      | malformed => exact ⟨h.1, h.2⟩
      | ping => exact h
      | closeFrame => exact ⟨h.1, h.2⟩
      | otherFrame => exact h

theorem pumpRun_helloInv (binary compression : Bool) (events : List WsEvent) :
    HelloInv (pumpRun binary compression events) := by
  unfold pumpRun
  generalize hs : initPump binary compression = s0
  have h0 : HelloInv s0 := by
    rw [← hs]
    exact ⟨fun _ => rfl, by simp [initPump]⟩
  clear hs
  induction events generalizing s0 with
  | nil => exact h0
  | cons e es ih =>
      rw [List.foldl_cons]
      exact ih _ (pumpStep_helloInv s0 e h0)

/-- C3: On any one connection the handshake channel is fulfilled at most
once, and once hello_tx has been taken, a frame shaped like a HELLO
response (sentinel id -1, result "hello") leaves the pump state — in
particular the negotiated binary mode and the fulfillment count —
completely unchanged. -/
theorem ws_hello_exchanged_once :
    (∀ (binary compression : Bool) (events : List WsEvent),
      (pumpRun binary compression events).helloFulfilled ≤ 1) ∧
    (∀ (s : PumpState) (r : Response) (hp : Option HelloResp),
      s.helloTx = false →
      r.id = some (ReqId.num (-1)) →
      r.resultIs "hello" = true →
      pumpStep s (.frame (.resp r hp)) = s) := by
  constructor
  · intro binary compression events
    exact (pumpRun_helloInv binary compression events).2
  · intro s r hp hTx hid hhello
    have hping := resultIs_hello_not_ping hhello
    have hnone := resultIs_some hhello
    unfold pumpStep
    split
    · rfl
    simp only [pumpExec]
    unfold dispatch
    rw [if_neg (by simp [hping]), if_pos hid, if_neg (by simp [hnone]),
      if_pos (by simp [hhello]), if_pos (by simp [hTx])]

def c3State : PumpState := { helloTx := false, binaryMode := true }

def c3Resp : Response := { id := some (.num (-1)), result := some (.str "hello") }

/-- C3 witness: with hello_tx already consumed, a second HELLO-shaped
frame is ignored: the state is returned unchanged. -/
theorem ws_hello_exchanged_once_witness :
    c3State.helloTx = false ∧
    c3Resp.id = some (ReqId.num (-1)) ∧
    c3Resp.resultIs "hello" = true ∧
    pumpStep c3State (.frame (.resp c3Resp none)) = c3State :=
  ⟨rfl, rfl, by decide,
    ws_hello_exchanged_once.2 c3State c3Resp none rfl rfl (by decide)⟩

end Hulyrs

namespace Hulyrs

/-- The sequence of request ids assigned to Call commands, in order. -/
def assignedIds (s : PumpState) : List Int := s.assigned.map Prod.snd

theorem idAt_small (k : Nat) (h : k + 1 < 2 ^ 31) : idAt k = 1 + k := by
  rw [idAt, wrap32_def]
  omega

def callEvent : WsEvent := .cmd (.call 0 .null)

theorem replicate_calls_run : ∀ (n : Nat) (s : PumpState), s.stopped = false →
    ((List.replicate n callEvent).foldl pumpStep s).assigned.length
      = s.assigned.length + n ∧
    ((List.replicate n callEvent).foldl pumpStep s).stopped = false := by
  intro n
  induction n with
  | zero => intro s hs; exact ⟨rfl, hs⟩
  | succ m ih =>
      intro s hs
      rw [List.replicate_succ, List.foldl_cons]
      have hnot : ¬ (s.stopped = true) := by
        rw [hs]
        exact Bool.false_ne_true
      have hstep1 : (pumpStep s callEvent).stopped = false := by
        unfold pumpStep callEvent
        rw [if_neg hnot]
        simpa [pumpExec] using hs
      have hstep2 : (pumpStep s callEvent).assigned.length
          = s.assigned.length + 1 := by
        unfold pumpStep callEvent
        rw [if_neg hnot]
        simp [pumpExec]
      obtain ⟨h1, h2⟩ := ih _ hstep1
      rw [h1, hstep2]
      exact ⟨by omega, h2⟩

def c4Events : List WsEvent := List.replicate (2 ^ 31) callEvent

/-- C4 counterexample: after 2^31 Call commands the wrapping i32 counter
makes the assigned id sequence decrease (from 2^31 - 1 to -2^31), so the
ids of an arbitrary command sequence are not always strictly increasing. -/
theorem ws_request_ids_counterexample :
    ¬ List.Pairwise (· < ·) (assignedIds (pumpRun false false c4Events)) := by
  intro hpair
  have hids := (pumpRun_idsInv false false c4Events).1
  have hlen : (pumpRun false false c4Events).assigned.length = 2 ^ 31 := by
    have h := (replicate_calls_run (2 ^ 31) (initPump false false) rfl).1
    rw [show (initPump false false).assigned.length = 0 from rfl, Nat.zero_add] at h
    exact h
  have hl : assignedIds (pumpRun false false c4Events)
      = (List.range (2 ^ 31)).map idAt := by
    rw [assignedIds, hids, hlen]
  rw [hl, List.pairwise_iff_getElem] at hpair
  have hp : (2 : Nat) ^ 31 - 2 < ((List.range (2 ^ 31)).map idAt).length := by
    rw [List.length_map, List.length_range]
    norm_num
  have hq : (2 : Nat) ^ 31 - 1 < ((List.range (2 ^ 31)).map idAt).length := by
    rw [List.length_map, List.length_range]
    norm_num
  have hg := hpair (2 ^ 31 - 2) (2 ^ 31 - 1) hp hq (by norm_num)
  rw [List.getElem_map, List.getElem_map, List.getElem_range,
    List.getElem_range] at hg
  have e1 : idAt (2 ^ 31 - 2) = 2 ^ 31 - 1 := by
    rw [idAt, wrap32_def]
    norm_num
  have e2 : idAt (2 ^ 31 - 1) = -(2 ^ 31) := by
    rw [idAt, wrap32_def]
    norm_num
  rw [e1, e2] at hg
  norm_num at hg

/-- C4 amended: for every schedule in which the pump task processes fewer
than 2^31 Call commands, the assigned request ids are pairwise strictly
increasing integers, the first assigned id is 1, and no assigned id equals
the HELLO sentinel -1.  (The unamended claim fails at 2^31 calls because
the i32 counter wraps.) -/
theorem ws_request_ids_increasing (binary compression : Bool)
    (events : List WsEvent)
    (hlen : (pumpRun binary compression events).assigned.length < 2 ^ 31) :
    List.Pairwise (· < ·) (assignedIds (pumpRun binary compression events)) ∧
    (∀ i ∈ assignedIds (pumpRun binary compression events), 1 ≤ i ∧ i ≠ -1) ∧
    ((assignedIds (pumpRun binary compression events)).head? = none ∨
     (assignedIds (pumpRun binary compression events)).head? = some 1) := by
  have hids := (pumpRun_idsInv binary compression events).1
  set n := (pumpRun binary compression events).assigned.length with hn
  have hl : assignedIds (pumpRun binary compression events)
      = (List.range n).map idAt := by
    rw [assignedIds, hids]
  refine ⟨?_, ?_, ?_⟩
  · rw [hl, List.pairwise_iff_getElem]
    intro i j hi hj hij
    rw [List.length_map, List.length_range] at hi hj
    rw [List.getElem_map, List.getElem_map, List.getElem_range,
      List.getElem_range]
    rw [idAt_small i (by omega), idAt_small j (by omega)]
    omega
  · intro i hi
    rw [hl] at hi
    obtain ⟨k, hk, hik⟩ := List.mem_map.mp hi
    rw [List.mem_range] at hk
    rw [← hik, idAt_small k (by omega)]
    omega
  · rw [hl]
    cases hcase : n with
    | zero => exact Or.inl rfl
    | succ m =>
        right
        rw [List.range_succ_eq_map]
        simp only [List.map_cons, List.head?_cons]
        rw [idAt_small 0 (by norm_num)]
        norm_num

def c4SmallEvents : List WsEvent :=
  [.cmd (.call 0 .null), .cmd (.call 1 .null), .cmd (.call 2 .null)]

/-- C4 witness: three calls on a fresh session get ids 1, 2, 3 — strictly
increasing, starting at 1, never the sentinel. -/
theorem ws_request_ids_increasing_witness :
    (pumpRun false false c4SmallEvents).assigned.length < 2 ^ 31 ∧
    (List.Pairwise (· < ·) (assignedIds (pumpRun false false c4SmallEvents)) ∧
     (∀ i ∈ assignedIds (pumpRun false false c4SmallEvents), 1 ≤ i ∧ i ≠ -1) ∧
     ((assignedIds (pumpRun false false c4SmallEvents)).head? = none ∨
      (assignedIds (pumpRun false false c4SmallEvents)).head? = some 1)) :=
  ⟨by decide,
    ws_request_ids_increasing false false c4SmallEvents (by decide)⟩

end Hulyrs

namespace Hulyrs

/-- C5 counterexample: for the concrete response envelope with neither
result nor error, into_result is Ok, yet the correlated ws caller receives
the error "server didn't return a result" — not a success. -/
theorem ws_empty_response_counterexample :
    Response.into_result ({} : Response) = Except.ok ({} : OkResponse) ∧
    wsCallReply ({} : Response)
      = Except.error (Error.other "server didn't return a result") :=
  ⟨rfl, rfl⟩

/-- C5 amended: a response with neither result nor error passes
Response::into_result as a successful envelope with result None, but a
correlated ws get/post caller then receives the distinct error "server
didn't return a result" from send_and_wait, not a success with an
implicit null result. -/
theorem ws_empty_response_amended (r : Response)
    (hres : r.result = none) (herr : r.error = none) :
    r.into_result = Except.ok { result := none, id := r.id,
                                terminate := r.terminate,
                                rateLimit := r.rateLimit, chunk := r.chunk,
                                time := r.time, bfst := r.bfst,
                                queue := r.queue } ∧
    wsCallReply r = Except.error (Error.other "server didn't return a result") := by
  have h1 : r.into_result = Except.ok { result := none, id := r.id,
                                          terminate := r.terminate,
                                          rateLimit := r.rateLimit,
                                          chunk := r.chunk, time := r.time,
                                          bfst := r.bfst,
                                          queue := r.queue } := by
    unfold Response.into_result
    rw [herr, hres]
  refine ⟨h1, ?_⟩
  unfold wsCallReply
  rw [h1]
  rfl

/-- C5 witness: the amended statement at the all-default response. -/
theorem ws_empty_response_amended_witness :
    ({} : Response).result = none ∧ ({} : Response).error = none ∧
    (({} : Response).into_result = Except.ok {
                                     result := none,
                                     id := ({} : Response).id,
                                     terminate := ({} : Response).terminate,
                                     rateLimit := ({} : Response).rateLimit,
                                     chunk := ({} : Response).chunk,
                                     time := ({} : Response).time,
                                     bfst := ({} : Response).bfst,
                                     queue := ({} : Response).queue } ∧
     wsCallReply ({} : Response)
       = Except.error (Error.other "server didn't return a result")) :=
  ⟨rfl, rfl, ws_empty_response_amended {} rfl rfl⟩

end Hulyrs

namespace Hulyrs

/-- services::transactor::subscription::SubscriptionState.  The Fetching
variant's JoinHandle is consulted through the poll oracle below. -/
inductive SubState where
  | initial
  | fetching
  | draining
  | waiting
deriving DecidableEq, Repr

/-- SubscribedQuery<Q, T> at T = Value: the fields poll_next reads and
writes.  The query, options and client fields only parameterize the
spawned findAll task and are part of the oracle; the target class is kept
because poll_next compares it against incoming transactions. -/
structure SubMachine where
  targetClass : String
  state : SubState
  items : List JValue
deriving Repr

/-- What tx_rx.try_recv() returns; `ok` carries tx.doc.obj.class, the
only field of the received transaction poll_next consults. -/
inductive RecvOut where
  | ok (txClass : String)
  | lagged
  | closed
  | empty
deriving Repr

/-- What polling the spawned findAll JoinHandle returns: still pending,
finished with a FindResult's value list, finished with an error, or a
task panic (JoinError). -/
inductive FetchOut where
  | pendingFetch
  | done (items : List JValue)
  | failed (e : Error)
  | panicked
deriving Repr

/-- The environment of one iteration of poll_next's loop: what the fetch
handle and the broadcast receiver would answer if consulted. -/
structure SubInput where
  fetch : FetchOut
  recv : RecvOut
deriving Repr

/-- What one call of poll_next returns to the stream consumer. -/
inductive PollOut where
  | item (x : Except Error JValue)
  | pending
  | ended
deriving Repr

/-- One iteration of SubscribedQuery::poll_next's loop: the new machine,
and `some` output if this iteration returns from poll_next, `none` if the
loop continues. -/
def subStep (m : SubMachine) (i : SubInput) : SubMachine × Option PollOut :=
  match m.state with
  | .initial => ({ m with state := .fetching }, none)
  | .fetching =>
      match i.fetch with
      | .pendingFetch => (m, some .pending)
      | .done its => ({ m with state := .draining, items := its }, none)
      | .failed e => ({ m with state := .waiting }, some (.item (.error e)))
      | .panicked =>
          ({ m with state := .waiting }, some (.item (.error .subscriptionFailed)))
  | .draining =>
      match m.items with
      | [] => ({ m with state := .waiting }, none)
      | x :: rest => ({ m with items := rest }, some (.item (.ok x)))
  | .waiting =>
      match i.recv with
      | .ok txClass =>
          if txClass ≠ m.targetClass then (m, none)
          else ({ m with state := .initial }, none)
      | .lagged => ({ m with state := .initial }, none)
      | .closed => (m, some .ended)
      | .empty => (m, some .pending)

/-- poll_next as a whole: iterate subStep, consuming one oracle input per
loop iteration, until an iteration returns. -/
def subRun : SubMachine → List SubInput → SubMachine × Option PollOut
  | m, [] => (m, none)
  | m, i :: rest =>
      match subStep m i with
      | (m', some o) => (m', some o)
      | (m', none) => subRun m' rest

def c6Machine : SubMachine :=
  { targetClass := "c", state := .waiting, items := [] }

def c6LagInput : SubInput := { fetch := .pendingFetch, recv := .lagged }

/-- C6 counterexample: the poll iteration that observes a lagged broadcast
receiver emits no item at all — it silently resets the machine to Initial
— and the whole poll then reports Pending while a fresh findAll is
spawned; no explicit lag-error item ever reaches the consumer. -/
theorem subscription_lag_counterexample :
    subStep c6Machine c6LagInput
      = ({ targetClass := "c", state := .initial, items := [] }, none) ∧
    subRun c6Machine [c6LagInput, c6LagInput, c6LagInput]
      = ({ targetClass := "c", state := .fetching, items := [] }, some .pending) :=
  ⟨rfl, rfl⟩

/-- C6 amended: whenever the broadcast receiver reports lag, the
subscription's poll loop yields no error item: it resets the state machine
to Initial, so the following iterations re-issue a full findAll (an
implicit resynchronization); the consumer never receives an explicit
lag-error item for the lag condition. -/
theorem subscription_lag_resets (targetClass : String) (items : List JValue)
    (i : SubInput) (hlag : i.recv = .lagged) :
    subStep { targetClass := targetClass, state := .waiting, items := items } i
      = ({ targetClass := targetClass, state := .initial, items := items },
         none) := by
  simp [subStep, hlag]

/-- C6 witness: the amended statement at the concrete lag input. -/
theorem subscription_lag_resets_witness :
    c6LagInput.recv = RecvOut.lagged ∧
    subStep { targetClass := "c", state := .waiting, items := [] } c6LagInput
      = ({ targetClass := "c", state := .initial, items := [] }, none) :=
  ⟨rfl, subscription_lag_resets "c" [] c6LagInput rfl⟩

end Hulyrs

namespace Hulyrs

/-- transactor::methods::Method, generated by the api_methods macro with
its two textual spellings. -/
inductive Method where
  | account
  | findAll
  | ensurePerson
  | tx
  | request
  | event
  | ping
  | hello
deriving DecidableEq, Repr

def Method.kebab : Method → String
  | .account => "account"
  | .findAll => "find-all"
  | .ensurePerson => "ensure-person"
  | .tx => "tx"
  | .request => "request"
  | .event => "event"
  | .ping => "ping"
  | .hello => "hello"

def Method.camel : Method → String
  | .account => "account"
  | .findAll => "findAll"
  | .ensurePerson => "ensurePerson"
  | .tx => "tx"
  | .request => "domainRequest"
  | .event => "event"
  | .ping => "ping"
  | .hello => "hello"

/-- HttpBackend::domain_request's relative URL: path built by
format!("/api/v1/{}/{domain}/{operation}/{}", Method::Event.kebab(),
workspace), and the single ("params", serialized params) query pair passed
to get_path. -/
def domain_request_url (workspace domain operation : String) (params : JValue) :
    String × List (String × JValue) :=
  ("/api/v1/" ++ Method.event.kebab ++ "/" ++ domain ++ "/" ++ operation
     ++ "/" ++ workspace,
   [("params", params)])

/-- The domain-request URL path as the spec's words describe it:
/api/v1/{domainRequest-kebab}/{domain}/{operation}/{workspace}, where
{domainRequest-kebab} is the kebab spelling of the domain-request method
(Method::Request) from the registry. -/
def specDomainRequestPath (workspace domain operation : String) : String :=
  "/api/v1/" ++ Method.request.kebab ++ "/" ++ domain ++ "/" ++ operation
    ++ "/" ++ workspace

/-- C7 counterexample: at concrete inputs the code's domain-request path
is /api/v1/event/... (the generic event method's kebab), which differs
from the /api/v1/request/... path the claim prescribes. -/
theorem domain_request_path_counterexample :
    (domain_request_url "w" "d" "op" .null).1 = "/api/v1/event/d/op/w" ∧
    specDomainRequestPath "w" "d" "op" = "/api/v1/request/d/op/w" ∧
    (domain_request_url "w" "d" "op" .null).1 ≠ specDomainRequestPath "w" "d" "op" := by
  refine ⟨rfl, rfl, ?_⟩
  decide

/-- C7 amended: for every domain request issued through the HTTP backend,
the URL path is /api/v1/{event-kebab}/{domain}/{operation}/{workspace} —
the path segment is the kebab spelling "event" of the generic event
method, not the kebab spelling "request" of the domain-request method —
and the caller's params are JSON-encoded into a single `params` query
value. -/
theorem domain_request_url_spec (workspace domain operation : String)
    (params : JValue) :
    domain_request_url workspace domain operation params
      = ("/api/v1/event/" ++ domain ++ "/" ++ operation ++ "/" ++ workspace,
         [("params", params)]) ∧
    Method.event.kebab = "event" ∧
    Method.request.kebab = "request" ∧
    Method.request.camel = "domainRequest" := by
  refine ⟨?_, rfl, rfl, rfl⟩
  unfold domain_request_url
  rfl

end Hulyrs

namespace Hulyrs

/-- Modelled from the spec: TxEvent<C> (spec section 3) at C = Value —
the typed incremental events a subscription decodes from broadcast
items.  The `subscription::live_query` / one-parameter `SubscribedQuery<C>`
module referenced by TransactorClient::live_query is not present in the
source tree, so the live-query pipeline below follows the spec's words. -/
inductive TxEvent where
  | created (doc : JValue)
  | updated (ops : JValue)
  | deleted (id : String)
deriving Repr

/-- Modelled from the spec: LiveQueryEvent<C> (spec section 3) at
C = Value: one Initial full-snapshot event, or an incremental event
wrapped as Polled. -/
inductive LiveQueryEvent where
  | initial (snapshot : List JValue)
  | polled (e : TxEvent)
deriving Repr

/-- Modelled from the spec: the state of live_query (spec section 4.6) —
first the asynchronous findAll fetch, then the subscription stream. -/
inductive LQState where
  | fetching
  | streaming
deriving DecidableEq, Repr

/-- Modelled from the spec: what one poll of the live-query stream
observes: the pending or completed initial fetch, or a subscription item
(or none being ready). -/
inductive LQInput where
  | fetchPending
  | fetchDone (snapshot : List JValue)
  | subItem (e : TxEvent)
  | subPending
deriving Repr

/-- Modelled from the spec: one step of live_query — the composition of
(a) one initial fetch via findAll producing a single Initial snapshot
event and (b) the unbounded subscription stream whose items are wrapped
as Polled; the subscription is not polled until the fetch completes. -/
def lqStep : LQState → LQInput → LQState × Option LiveQueryEvent
  | .fetching, .fetchDone snap => (.streaming, some (.initial snap))
  | .fetching, _ => (.fetching, none)
  | .streaming, .subItem e => (.streaming, some (.polled e))
  | .streaming, _ => (.streaming, none)

/-- Modelled from the spec: the live-query stream's emitted items over a
finite poll schedule, starting in the fetching state. -/
def lqRun : LQState → List LQInput → List LiveQueryEvent
  | _, [] => []
  | s, i :: rest =>
      match lqStep s i with
      | (s', some o) => o :: lqRun s' rest
      | (s', none) => lqRun s' rest

theorem lqRun_streaming_polled (inputs : List LQInput) :
    ∀ x ∈ lqRun .streaming inputs, ∃ t, x = LiveQueryEvent.polled t := by
  induction inputs with
  | nil => intro x hx; cases hx
  | cons i rest ih =>
      intro x hx
      cases i with
      | fetchPending => exact ih x hx
      | fetchDone snap => exact ih x hx
      | subItem e =>
          rcases List.mem_cons.mp hx with hx | hx
          · exact ⟨e, hx⟩
          · exact ih x hx
      | subPending => exact ih x hx

/-- C8: every item sequence a live query emits is one Initial snapshot
event first (emitted when the findAll fetch completes) followed only by
Polled-wrapped subscription events; no subscription-derived item is ever
emitted before the initial snapshot, and if the fetch never completes in
the schedule, nothing is emitted at all. -/
theorem live_query_initial_first (inputs : List LQInput) :
    lqRun LQState.fetching inputs = [] ∨
    ∃ snap rest, lqRun LQState.fetching inputs = LiveQueryEvent.initial snap :: rest ∧
      ∀ x ∈ rest, ∃ t, x = LiveQueryEvent.polled t := by
  induction inputs with
  | nil => exact Or.inl rfl
  | cons i rest ih =>
      cases i with
      | fetchPending => exact ih
      | fetchDone snap =>
          exact Or.inr ⟨snap, lqRun .streaming rest, rfl,
            lqRun_streaming_polled rest⟩
      | subItem e => exact ih
      | subPending => exact ih

end Hulyrs

namespace Hulyrs

/-- First-match association lookup on JSON object fields (serde_json Map
get; object keys are unique). -/
def alookup (k : String) : List (String × JValue) → Option JValue
  | [] => none
  | (k', v) :: rest => if k' = k then some v else alookup k rest

def JValue.isObj : JValue → Bool
  | .obj _ => true
  | _ => false

def JValue.objFields : JValue → List (String × JValue)
  | .obj fs => fs
  | _ => []

/-- transactor::document::FindOptions.  The Lookup payload is only
serialized and carried; it is modelled as a JSON value. -/
structure FindOptions where
  limit : Option Nat := none
  lookup : Option JValue := none
  projection : List (String × Nat) := []
  total : Bool := false
  showArchived : Bool := false
deriving Repr

/-- core::FindResult<T> at T = Value. -/
structure FindResultV where
  total : Int
  value : List JValue
  lookupMap : Option (List (String × JValue)) := none
deriving Repr

/-- The remote transactor as an oracle: what the findAll GET returns for
a given class, query and options. -/
def Server : Type := String → JValue → FindOptions → Except Error FindResultV

/-- Outcome of find_all, including the panic that
entry.as_object_mut().unwrap() raises on a non-object result entry. -/
inductive RunOutcome (α : Type) where
  | ok (a : α)
  | fail (e : Error)
  | panicked
deriving Repr

/-- One element of a $lookup array: a string is replaced by its
lookup_map entry (Null when absent), anything else is kept. -/
def substItem (lm : List (String × JValue)) (v : JValue) : JValue :=
  match v with
  | .str s => (alookup s lm).getD .null
  | other => other

/-- One value of a $lookup object: arrays are substituted elementwise,
strings replaced via the lookup map, anything else kept. -/
def substValue (lm : List (String × JValue)) (v : JValue) : JValue :=
  match v with
  | .arr xs => .arr (xs.map (substItem lm))
  | .str s => (alookup s lm).getD .null
  | other => other

/-- The value of an entry's "$lookup" field after substitution: only
object-shaped values are rewritten (as_object_mut fails otherwise). -/
def substLookupObj (lm : List (String × JValue)) (v : JValue) : JValue :=
  match v with
  | .obj gs => .obj (gs.map (fun kv => (kv.1, substValue lm kv.2)))
  | other => other

/-- The $lookup resolution loop of find_all, for one result entry: if the
entry is an object with a "$lookup" field, that field's object values are
substituted through the lookup map; other entries pass unchanged. -/
def substLookup (lm : List (String × JValue)) (entry : JValue) : JValue :=
  match entry with
  | .obj fs =>
      .obj (fs.map (fun kv =>
        if kv.1 = "$lookup" then (kv.1, substLookupObj lm kv.2) else kv))
  | other => other

/-- The _class defaulting step of find_all: insert ("_class", class) when
the document omits it. -/
def withClass (klass : String) (fields : List (String × JValue)) :
    List (String × JValue) :=
  if (alookup "_class" fields).isSome then fields
  else fields ++ [("_class", .str klass)]

/-- v.is_string() || v.is_boolean() || v.is_number(). -/
def isPrimitive : JValue → Bool
  | .str _ => true
  | .bool _ => true
  | .num _ => true
  | _ => false

/-- The query-field copying loop of find_all: each primitive query pair
absent from the document is appended. -/
def copyQuery (qpairs fields : List (String × JValue)) :
    List (String × JValue) :=
  qpairs.foldl
    (fun fs kv =>
      if (alookup kv.1 fs).isNone && isPrimitive kv.2 then fs ++ [kv]
      else fs)
    fields

/-- The per-document postprocessing of find_all: default the _class key,
then copy absent primitive query fields. -/
def postDoc (klass : String) (qpairs : List (String × JValue))
    (doc : JValue) : JValue :=
  .obj (copyQuery qpairs (withClass klass doc.objFields))

/-- DocumentClient::find_all for TransactorClient over an abstract
backend, at C = Value: reject non-object queries before any request,
issue the findAll call, resolve $lookup references, then postprocess each
document; a non-object entry panics (as_object_mut().unwrap()). -/
def substAll (lookupMap : Option (List (String × JValue)))
    (value : List JValue) : List JValue :=
  match lookupMap with
  | some lm => value.map (substLookup lm)
  | none => value

def findAll (server : Server) (klass : String) (query : JValue)
    (options : FindOptions) : RunOutcome FindResultV :=
  if ¬ query.isObj then .fail (.other "QueryIsNotObject")
  else
    match server klass query options with
    | .error e => .fail e
    | .ok r =>
        if (substAll r.lookupMap r.value).all JValue.isObj then
          .ok { total := r.total,
                value := (substAll r.lookupMap r.value).map
                  (postDoc klass query.objFields),
                lookupMap := r.lookupMap }
        else .panicked

/-- DocumentClient::find_one: find_all with the limit overridden to 1 and
all other options unchanged, returning the first element. -/
def findOne (server : Server) (klass : String) (query : JValue)
    (options : FindOptions) : RunOutcome (Option JValue) :=
  match findAll server klass query { options with limit := some 1 } with
  | .ok r => .ok r.value.head?
  | .fail e => .fail e
  | .panicked => .panicked

end Hulyrs

namespace Hulyrs

theorem head?_eq_none_iff_nil {α} (l : List α) : l.head? = none ↔ l = [] := by
  cases l <;> simp

/-- C9: find_one delegates to find_all with the same class and query and
the options' limit field replaced by 1 — every other option field
unchanged — and returns the first element of the returned list; on a
successful find_all it returns none exactly when that list is empty. -/
theorem find_one_is_limited_find_all (server : Server) (klass : String)
    (query : JValue) (options : FindOptions) :
    (findOne server klass query options
      = match findAll server klass query { options with limit := some 1 } with
        | .ok r => .ok r.value.head?
        | .fail e => .fail e
        | .panicked => .panicked) ∧
    ({ options with limit := some 1 } : FindOptions).limit = some 1 ∧
    ({ options with limit := some 1 } : FindOptions).lookup = options.lookup ∧
    ({ options with limit := some 1 } : FindOptions).projection
      = options.projection ∧
    ({ options with limit := some 1 } : FindOptions).total = options.total ∧
    ({ options with limit := some 1 } : FindOptions).showArchived
      = options.showArchived ∧
    (∀ r, findAll server klass query { options with limit := some 1 } = .ok r →
      findOne server klass query options = .ok r.value.head? ∧
      (findOne server klass query options = .ok none ↔ r.value = [])) := by
  refine ⟨rfl, rfl, rfl, rfl, rfl, rfl, ?_⟩
  intro r hr
  have h1 : findOne server klass query options = .ok r.value.head? := by
    unfold findOne
    rw [hr]
  refine ⟨h1, ?_⟩
  rw [h1]
  constructor
  · intro h
    injection h with h2
    exact (head?_eq_none_iff_nil r.value).mp h2
  · intro h
    rw [h]
    rfl

def c9Server : Server := fun _ _ _ =>
  .ok { total := 2,
        value := [JValue.obj [("x", .num 1)], JValue.obj [("x", .num 2)]],
        lookupMap := none }

def c9Result : FindResultV :=
  { total := 2,
    value := [JValue.obj [("x", .num 1), ("_class", .str "K")],
              JValue.obj [("x", .num 2), ("_class", .str "K")]],
    lookupMap := none }

/-- C9 witness: against a two-document server, find_one returns the first
postprocessed document of the limit-1 find_all, and the empty test of the
iff holds at the concrete result. -/
theorem find_one_is_limited_find_all_witness :
    findAll c9Server "K" (JValue.obj []) { limit := some 1 } = .ok c9Result ∧
    (findOne c9Server "K" (JValue.obj []) {} = .ok c9Result.value.head? ∧
     (findOne c9Server "K" (JValue.obj []) {} = .ok none ↔ c9Result.value = [])) :=
  have hr : findAll c9Server "K" (JValue.obj []) { limit := some 1 }
      = .ok c9Result := rfl
  ⟨hr,
    (find_one_is_limited_find_all c9Server "K" (JValue.obj []) {}).2.2.2.2.2.2
      c9Result hr⟩

end Hulyrs

namespace Hulyrs

theorem alookup_append_some {k : String} {w : JValue}
    (xs ys : List (String × JValue)) (h : alookup k xs = some w) :
    alookup k (xs ++ ys) = some w := by
  induction xs with
  | nil => cases h
  | cons p rest ih =>
      obtain ⟨k', v⟩ := p
      simp only [List.cons_append, alookup] at h ⊢
      by_cases hk : k' = k
      · rw [if_pos hk] at h ⊢
        exact h
      · rw [if_neg hk] at h ⊢
        exact ih h

theorem alookup_append_none {k : String}
    (xs ys : List (String × JValue)) (h : alookup k xs = none) :
    alookup k (xs ++ ys) = alookup k ys := by
  induction xs with
  | nil => rfl
  | cons p rest ih =>
      obtain ⟨k', v⟩ := p
      simp only [List.cons_append, alookup] at h ⊢
      by_cases hk : k' = k
      · rw [if_pos hk] at h
        cases h
      · rw [if_neg hk] at h ⊢
        exact ih h

theorem copyQuery_preserves (qpairs : List (String × JValue)) :
    ∀ (fs : List (String × JValue)) (k : String) (w : JValue),
    alookup k fs = some w → alookup k (copyQuery qpairs fs) = some w := by
  induction qpairs with
  | nil => intro fs k w h; exact h
  | cons kv rest ih =>
      intro fs k w h
      show alookup k (copyQuery rest
        (if (alookup kv.1 fs).isNone && isPrimitive kv.2 then fs ++ [kv]
         else fs)) = some w
      split
      · exact ih _ k w (alookup_append_some fs [kv] h)
      · exact ih _ k w h

theorem copyQuery_copies (qpairs : List (String × JValue)) :
    ∀ (fs : List (String × JValue)) (k : String) (v : JValue),
    (qpairs.map Prod.fst).Nodup → (k, v) ∈ qpairs → isPrimitive v = true →
    alookup k fs = none →
    alookup k (copyQuery qpairs fs) = some v := by
  induction qpairs with
  | nil => intro fs k v _ hm _ _; cases hm
  | cons kv rest ih =>
      intro fs k v hnd hm hprim habs
      obtain ⟨k0, v0⟩ := kv
      simp only [List.map_cons, List.nodup_cons] at hnd
      rcases List.mem_cons.mp hm with hm | hm
      · cases hm
        show alookup k (copyQuery rest
          (if (alookup k fs).isNone && isPrimitive v then fs ++ [(k, v)]
           else fs)) = some v
        rw [if_pos (by rw [habs, hprim]; rfl)]
        apply copyQuery_preserves rest _ k v
        rw [alookup_append_none fs _ habs]
        simp [alookup]
      · have hk0 : k0 ≠ k := by
          intro hkk
          subst hkk
          exact hnd.1 (List.mem_map_of_mem Prod.fst hm)
        show alookup k (copyQuery rest
          (if (alookup k0 fs).isNone && isPrimitive v0 then fs ++ [(k0, v0)]
           else fs)) = some v
        split
        · apply ih _ k v hnd.2 hm hprim
          rw [alookup_append_none fs _ habs]
          simp [alookup, hk0]
        · exact ih _ k v hnd.2 hm hprim habs

theorem withClass_isSome (klass : String) (fields : List (String × JValue)) :
    (alookup "_class" (withClass klass fields)).isSome = true := by
  unfold withClass
  split
  · rename_i h
    exact h
  · rename_i h
    have hn : alookup "_class" fields = none := by
      cases hc : alookup "_class" fields with
      | none => rfl
      | some w => rw [hc] at h; exact absurd rfl h
    rw [alookup_append_none fields _ hn]
    simp [alookup]

theorem withClass_default (klass : String) (fields : List (String × JValue))
    (h : alookup "_class" fields = none) :
    alookup "_class" (withClass klass fields) = some (.str klass) := by
  unfold withClass
  rw [if_neg (by rw [h]; simp)]
  rw [alookup_append_none fields _ h]
  simp [alookup]

theorem withClass_keeps (klass : String) (fields : List (String × JValue))
    (w : JValue) (h : alookup "_class" fields = some w) :
    alookup "_class" (withClass klass fields) = some w := by
  unfold withClass
  rw [if_pos (by rw [h]; rfl)]
  exact h

end Hulyrs

namespace Hulyrs

/-- C10: (1) every value in a successful find_all result is the
postprocessing of an object the server (after $lookup resolution)
returned; (2) postprocessing guarantees the _class key is present — set
to the queried class when the document omitted it and kept otherwise —
and copies every primitive query pair whose key is absent from the
(_class-defaulted) document; (3) a non-object query fails with
"QueryIsNotObject" regardless of the server, i.e. without any request. -/
theorem find_all_postconditions :
    (∀ (server : Server) (klass : String) (query : JValue)
        (options : FindOptions) (r : FindResultV),
      findAll server klass query options = .ok r →
      ∃ docs : List JValue, r.value = docs.map (postDoc klass query.objFields) ∧
        ∀ d ∈ docs, d.isObj = true) ∧
    (∀ (klass : String) (qpairs : List (String × JValue)) (doc : JValue),
      (alookup "_class" (postDoc klass qpairs doc).objFields).isSome = true ∧
      (alookup "_class" doc.objFields = none →
        alookup "_class" (postDoc klass qpairs doc).objFields
          = some (.str klass)) ∧
      (∀ w, alookup "_class" doc.objFields = some w →
        alookup "_class" (postDoc klass qpairs doc).objFields = some w) ∧
      (∀ k v, (qpairs.map Prod.fst).Nodup → (k, v) ∈ qpairs →
        isPrimitive v = true →
        alookup k (withClass klass doc.objFields) = none →
        alookup k (postDoc klass qpairs doc).objFields = some v)) ∧
    (∀ (server : Server) (klass : String) (query : JValue)
        (options : FindOptions),
      query.isObj = false →
      findAll server klass query options = .fail (Error.other "QueryIsNotObject")) := by
  refine ⟨?_, ?_, ?_⟩
  · intro server klass query options r h
    unfold findAll at h
    split at h
    · cases h
    · split at h
      · cases h
      · split at h
        · rename_i hall
          injection h with h2
          subst h2
          refine ⟨_, rfl, ?_⟩
          intro d hd
          exact List.all_eq_true.mp hall d hd
        · cases h
  · intro klass qpairs doc
    have hfields : (postDoc klass qpairs doc).objFields
        = copyQuery qpairs (withClass klass doc.objFields) := rfl
    refine ⟨?_, ?_, ?_, ?_⟩
    · rw [hfields]
      cases hc : alookup "_class" (withClass klass doc.objFields) with
      | none =>
          exfalso
          have := withClass_isSome klass doc.objFields
          rw [hc] at this
          cases this
      | some w =>
          rw [copyQuery_preserves qpairs _ _ w hc]
          rfl
    · intro h
      rw [hfields]
      exact copyQuery_preserves qpairs _ _ _ (withClass_default klass _ h)
    · intro w h
      rw [hfields]
      exact copyQuery_preserves qpairs _ _ _ (withClass_keeps klass _ w h)
    · intro k v hnd hm hprim habs
      rw [hfields]
      exact copyQuery_copies qpairs _ k v hnd hm hprim habs
  · intro server klass query options hq
    unfold findAll
    rw [if_pos (by rw [hq]; simp)]

end Hulyrs

namespace Hulyrs

def c10Server : Server := fun _ _ _ =>
  .ok { total := 1, value := [JValue.obj [("a", .num 1)]], lookupMap := none }

def c10Query : JValue := .obj [("q", .str "x")]

def c10QPairs : List (String × JValue) := [("q", .str "x")]

def c10Doc : JValue := .obj [("a", .num 1)]

def c10Doc2 : JValue := .obj [("_class", .str "Z")]

def c10Result : FindResultV :=
  { total := 1,
    value := [JValue.obj [("a", .num 1), ("_class", .str "K"), ("q", .str "x")]],
    lookupMap := none }

/-- C10 witness: a concrete one-document run: the result document gains
_class = "K" and the primitive query pair ("q","x"); a document already
carrying _class keeps it; and a numeric query fails with QueryIsNotObject
for this server as for any other. -/
theorem find_all_postconditions_witness :
    (findAll c10Server "K" c10Query {} = .ok c10Result) ∧
    (∃ docs : List JValue,
       c10Result.value = docs.map (postDoc "K" c10Query.objFields) ∧
       ∀ d ∈ docs, d.isObj = true) ∧
    ((alookup "_class" (postDoc "K" c10QPairs c10Doc).objFields).isSome = true) ∧
    (alookup "_class" c10Doc.objFields = none) ∧
    (alookup "_class" (postDoc "K" c10QPairs c10Doc).objFields
       = some (.str "K")) ∧
    (alookup "_class" c10Doc2.objFields = some (.str "Z")) ∧
    (alookup "_class" (postDoc "K" c10QPairs c10Doc2).objFields
       = some (.str "Z")) ∧
    ((c10QPairs.map Prod.fst).Nodup ∧ ("q", JValue.str "x") ∈ c10QPairs ∧
     isPrimitive (.str "x") = true ∧
     alookup "q" (withClass "K" c10Doc.objFields) = none ∧
     alookup "q" (postDoc "K" c10QPairs c10Doc).objFields = some (.str "x")) ∧
    ((JValue.num 5).isObj = false ∧
     findAll c10Server "K" (.num 5) {} = .fail (Error.other "QueryIsNotObject")) :=
  ⟨rfl,
   find_all_postconditions.1 c10Server "K" c10Query {} c10Result rfl,
   (find_all_postconditions.2.1 "K" c10QPairs c10Doc).1,
   rfl,
   (find_all_postconditions.2.1 "K" c10QPairs c10Doc).2.1 rfl,
   rfl,
   (find_all_postconditions.2.1 "K" c10QPairs c10Doc2).2.2.1 (.str "Z") rfl,
   ⟨by decide, List.Mem.head _, rfl, rfl,
    (find_all_postconditions.2.1 "K" c10QPairs c10Doc).2.2.2 "q" (.str "x")
      (by decide) (List.Mem.head _) rfl rfl⟩,
   ⟨rfl, find_all_postconditions.2.2 c10Server "K" (.num 5) {} rfl⟩⟩

end Hulyrs
